import Mathlib

/-!
Shallow embedding of the code-agent-proxy core (Rust repository
`code_agent`): the tool result model (`src/tools/mod.rs`), the tool
definitions and load-time validation (`src/tools/definition.rs`), the
execution strategies (`src/tools/executors.rs`), the registry's lazy
lookup (`src/agent/tool_registry.rs`), the file-edit and todo tools
(`src/tools/file_ops.rs`, `src/tools/todo.rs`), and the agent
conversation loop (`src/agent/agent_loop.rs`).

External effects (the HTTP transport, the filesystem, process spawning,
serde JSON parsing) are modelled as explicit inputs: a scripted list of
transport replies, an execution oracle returning `Except`, a child
process outcome value, and `Option`-valued parse results, mirroring the
exact control flow the Rust code performs on those values.
-/

namespace CodeAgent

/-- `ToolCall` from `src/agent/llm_client.rs`: an id, a type tag, and the
function name/arguments (the `FunctionCall` field is flattened here). -/
structure ToolCall where
  id : String
  toolType : String
  name : String
  arguments : String
  deriving Repr, DecidableEq

/-- `Message` from `src/agent/llm_client.rs`: one conversation turn. -/
structure Message where
  role : String
  content : String
  tool_calls : Option (List ToolCall)
  tool_call_id : Option String
  deriving Repr, DecidableEq

/-- `ToolResult` from `src/tools/mod.rs`. -/
structure ToolResult where
  success : Bool
  output : String
  error : Option String
  deriving Repr, DecidableEq

/-- `ToolResult::success` constructor (`src/tools/mod.rs` lines 40-46). -/
def ToolResult.mkSuccess (output : String) : ToolResult :=
  { success := true, output := output, error := none }

/-- `ToolResult::error` constructor (`src/tools/mod.rs` lines 48-54). -/
def ToolResult.mkError (e : String) : ToolResult :=
  { success := false, output := "", error := some e }

/-- The mutual-exclusivity property the spec asserts of `ToolResult`:
when `success` is true the error field is absent, and when `success` is
false the output field is empty. -/
def ToolResult.exclusive (r : ToolResult) : Prop :=
  (r.success = true → r.error = none) ∧ (r.success = false → r.output = "")

instance (r : ToolResult) : Decidable r.exclusive := by
  unfold ToolResult.exclusive; infer_instance

end CodeAgent

namespace CodeAgent

/-! ## Execution strategies (`src/tools/executors.rs`) -/

/-- Outcome of `wait_with_timeout` observed by `execute_script`:
either the child exited (with status success flag, optional exit code,
stdout and stderr) or the timeout elapsed and the child was killed. -/
inductive ChildOutcome where
  | exited (statusSuccess : Bool) (code : Option Int) (stdout stderr : String)
  | timedOut
  deriving Repr, DecidableEq

/-- The output-interpretation phase of `execute_script`
(`src/tools/executors.rs` lines 49-80).  `parsedStdout` is the result of
`serde_json::from_slice::<ToolResult>(&output.stdout)`: `serde` accepts
any JSON object carrying a `success` bool, an `output` string and an
optional `error` string, so the parse can yield any `ToolResult` value,
which the code returns verbatim.  `timeoutMs` is the per-definition
override, defaulted to 120000 as in line 50. -/
def interpretScriptOutput (outcome : ChildOutcome)
    (parsedStdout : String → Option ToolResult) (timeoutMs : Option Nat) :
    ToolResult :=
  let timeout := timeoutMs.getD 120000
  match outcome with
  | .exited statusSuccess code stdout stderr =>
    if statusSuccess then
      match parsedStdout stdout with
      | some r => r
      | none => ToolResult.mkSuccess stdout
    else
      ToolResult.mkError
        ("Script exited with code " ++ toString (code.getD (-1)) ++ ": " ++ stderr)
  | .timedOut =>
    ToolResult.mkError
      ("Script execution timed out after " ++ toString timeout ++ "ms")

/-- Result of one poll loop of `wait_with_timeout`. -/
inductive WaitResult where
  | exited
  | killed
  | diverge
  deriving Repr, DecidableEq

/-- A child process for the poll loop: `exitTime = some t` means
`try_wait` reports the child exited once `t` milliseconds have elapsed;
`none` means the child runs until killed. -/
structure Child where
  exitTime : Option Nat
  deriving Repr, DecidableEq

/-- `child.try_wait()` at elapsed time `e`. -/
def Child.hasExited (c : Child) (e : Nat) : Bool :=
  match c.exitTime with
  | some t => decide (t ≤ e)
  | none => false

/-- The poll loop of `wait_with_timeout` (`src/tools/executors.rs`
lines 145-173): check `try_wait`; if the child exited, collect output;
otherwise if elapsed ≥ timeout, kill the child and report the timeout;
otherwise sleep 100 ms and poll again.  `fuel` bounds the recursion; the
wrapper below supplies enough fuel that `diverge` is unreachable. -/
def waitAux (c : Child) (timeout : Nat) : Nat → Nat → WaitResult
  | 0, _ => .diverge
  | fuel + 1, elapsed =>
    if c.hasExited elapsed then .exited
    else if timeout ≤ elapsed then .killed
    else waitAux c timeout fuel (elapsed + 100)

/-- `wait_with_timeout`: the poll loop started at elapsed time 0 with
enough fuel to cover the whole timeout window. -/
def waitWithTimeout (c : Child) (timeout : Nat) : WaitResult :=
  waitAux c timeout (timeout / 100 + 2) 0

/-- A child process together with the exit observation `execute_script`
collects when it does exit: status success flag, optional exit code,
stdout and stderr. -/
structure ChildProc extends Child where
  statusSuccess : Bool
  code : Option Int
  stdout : String
  stderr : String

/-- The wait-then-interpret composition in `execute_script`
(`src/tools/executors.rs` lines 49-80): `wait_with_timeout` returning
`Some(output)` leads to the exit-status interpretation, `None` (the
child was killed on timeout) to the timeout error.  The `diverge` arm
cannot occur (the Rust loop always resolves; see
`waitWithTimeout_ne_diverge` below) and is mapped like the timeout. -/
def executeScriptModel (cp : ChildProc) (parse : String → Option ToolResult)
    (timeoutMs : Option Nat) : ToolResult :=
  match waitWithTimeout cp.toChild (timeoutMs.getD 120000) with
  | .exited =>
    interpretScriptOutput (.exited cp.statusSuccess cp.code cp.stdout cp.stderr)
      parse timeoutMs
  | .killed => interpretScriptOutput .timedOut parse timeoutMs
  | .diverge => interpretScriptOutput .timedOut parse timeoutMs

/-- The MCP response envelope seen by `execute_mcp_server` after a
successful transport exchange: an optional `error` object message and an
optional `result` value.  A present `result` is modelled by its
attempted structured parse (`some r` when
`serde_json::from_value::<ToolResult>` succeeds) together with its
stringified form for the fallback. -/
structure McpEnvelope where
  errorMessage : Option (Option String)
  result : Option (Option ToolResult × String)
  deriving Repr, DecidableEq

/-- The envelope-interpretation phase of `execute_mcp_server`
(`src/tools/executors.rs` lines 118-141): an `error` object wins, then a
`result` object is parsed as a `ToolResult` (returned verbatim) or
stringified into a success; absence of both is an error. -/
def interpretMcpResponse (env : McpEnvelope) : ToolResult :=
  match env.errorMessage with
  | some msg =>
    ToolResult.mkError ("MCP server error: " ++ msg.getD "unknown error")
  | none =>
    match env.result with
    | some (some r, _) => r
    | some (none, stringified) => ToolResult.mkSuccess stringified
    | none => ToolResult.mkError "MCP server response missing result field"

/-! ## Tool definitions (`src/tools/definition.rs`) -/

/-- `ImplementationType` from `src/tools/definition.rs`. -/
inductive ImplementationType where
  | builtin
  | script
  | mcpServer
  deriving Repr, DecidableEq

/-- `ToolDefinition` from `src/tools/definition.rs`; the JSON-schema
`parameters` value is kept opaque as a string. -/
structure ToolDefinition where
  name : String
  description : String
  parameters : String
  implementation_type : ImplementationType
  script_path : Option String
  server_url : Option String
  timeout_ms : Option Nat
  deriving Repr, DecidableEq

/-- `ToolDefinition::validate` (`src/tools/definition.rs` lines 52-77):
builtin definitions always pass; `script` requires `script_path` to be
present (`is_none` check only); `mcp_server` requires `server_url` to be
present (`is_none` check only). -/
def ToolDefinition.validate (d : ToolDefinition) : Except String Unit :=
  match d.implementation_type with
  | .builtin => .ok ()
  | .script =>
    if d.script_path.isNone then
      .error ("Tool '" ++ d.name ++ "' has implementation_type 'script' but no script_path")
    else
      .ok ()
  | .mcpServer =>
    if d.server_url.isNone then
      .error ("Tool '" ++ d.name ++ "' has implementation_type 'mcp_server' but no server_url")
    else
      .ok ()

/-- The post-parse phase of `ToolDefinition::from_file`
(`src/tools/definition.rs` lines 86-99), applied after
`serde_json::from_str` has produced `d`: a relative `script_path` (not
starting with `/` or `~`) is re-rooted under the sibling `scripts`
directory (`defDir` is the grandparent of the definition file's path,
`none` when that grandparent does not exist), then the definition is
validated. -/
def ToolDefinition.fromParsed (d : ToolDefinition) (defDir : Option String) :
    Except String ToolDefinition :=
  let resolved : Except String ToolDefinition :=
    match d.script_path with
    | some sp =>
      if ¬ sp.startsWith "/" ∧ ¬ sp.startsWith "~" then
        match defDir with
        | none => .error "Invalid tool definition path"
        | some dir => .ok { d with script_path := some (dir ++ "/scripts/" ++ sp) }
      else
        .ok d
    | none => .ok d
  match resolved with
  | .error e => .error e
  | .ok d2 =>
    match d2.validate with
    | .error e => .error e
    | .ok _ => .ok d2

/-! ## Registry lazy lookup (`src/agent/tool_registry.rs`) -/

/-- The registry state relevant to definition resolution: the definition
cache (`tool_definitions`) and the per-user tools directory, modelled as
a lookup function from a tool name to the outcome of
`ToolDefinition::from_file` on `<dir>/definitions/<name>.json` —
`none` when that file does not exist. -/
structure Registry where
  tool_definitions : List (String × ToolDefinition)
  userToolsDir : Option (String → Option (Except String ToolDefinition))

/-- `ToolRegistry::get_tool_definition` (`src/agent/tool_registry.rs`
lines 296-313): return the cached definition if present; otherwise, when
a user tools directory is configured and `<name>.json` exists there,
load it via `ToolDefinition::from_file` (propagating any parse,
path-resolution or validation error) and cache it on success; otherwise
fail with `Tool definition not found: <name>`. -/
def Registry.getToolDefinition (reg : Registry) (name : String) :
    Except String (ToolDefinition × Registry) :=
  match (reg.tool_definitions.lookup name) with
  | some d => .ok (d, reg)
  | none =>
    match reg.userToolsDir with
    | some fs =>
      match fs name with
      | some loadResult =>
        match loadResult with
        | .ok d => .ok (d, { reg with tool_definitions := (name, d) :: reg.tool_definitions })
        | .error e => .error e
      | none => .error ("Tool definition not found: " ++ name)
    | none => .error ("Tool definition not found: " ++ name)

/-! ## The edit tool (`src/tools/file_ops.rs`, `EditTool`) -/

/-- Count of non-overlapping leftmost matches of a nonempty pattern, as
computed by Rust's `str::matches(pat).count()`.  The structural `fuel`
argument bounds the scan; each recursive call consumes at least one
character, so `fuel = length of the scanned list` (as supplied by
`strMatchesCount`) never runs out. -/
def countAux (pat : List Char) : Nat → List Char → Nat
  | _, [] => 0
  | 0, _ :: _ => 0
  | fuel + 1, c :: cs =>
    if pat.isPrefixOf (c :: cs) then
      countAux pat fuel (List.drop (pat.length - 1) cs) + 1
    else
      countAux pat fuel cs

/-- Rust `content.matches(pat).count()`: for the empty pattern there is
one match at every char boundary (`len + 1`); otherwise non-overlapping
leftmost matching. -/
def strMatchesCount (s pat : String) : Nat :=
  if pat = "" then s.length + 1 else countAux pat.toList s.toList.length s.toList

/-- Leftmost non-overlapping replacement of a nonempty pattern by `rep`,
up to `limit` occurrences (`none` = no limit), as in Rust's
`str::replace` / `str::replacen`; `fuel` as in `countAux`. -/
def replaceNEAux (pat rep : List Char) : Nat → List Char → Option Nat → List Char
  | _, [], _ => []
  | 0, l, _ => l
  | fuel + 1, c :: cs, limit =>
    if limit = some 0 then c :: cs
    else if pat.isPrefixOf (c :: cs) then
      rep ++ replaceNEAux pat rep fuel (List.drop (pat.length - 1) cs) (limit.map (· - 1))
    else
      c :: replaceNEAux pat rep fuel cs limit

/-- Empty-pattern replacement with a bound: Rust inserts `rep` at the
first `n` char boundaries. -/
def emptyPatReplaceN (rep : List Char) : List Char → Nat → List Char
  | cs, 0 => cs
  | [], _ + 1 => rep
  | c :: cs, n + 1 => rep ++ c :: emptyPatReplaceN rep cs n

/-- Empty-pattern replacement, unbounded: Rust inserts `rep` at every
char boundary. -/
def emptyPatReplaceAll (rep : List Char) : List Char → List Char
  | [] => rep
  | c :: cs => rep ++ c :: emptyPatReplaceAll rep cs

/-- Rust `s.replacen(pat, rep, n)`. -/
def rustReplacen (s pat rep : String) (n : Nat) : String :=
  if pat = "" then ⟨emptyPatReplaceN rep.toList s.toList n⟩
  else ⟨replaceNEAux pat.toList rep.toList s.toList.length s.toList (some n)⟩

/-- Rust `s.replace(pat, rep)`. -/
def rustReplaceAll (s pat rep : String) : String :=
  if pat = "" then ⟨emptyPatReplaceAll rep.toList s.toList⟩
  else ⟨replaceNEAux pat.toList rep.toList s.toList.length s.toList none⟩

/-- `EditTool::execute` (`src/tools/file_ops.rs` lines 111-144) after
the file has been read into `fileContent`: returns the `ToolResult` and
the file's content after the call (the error branches return before
`fs::write`, so the content is unchanged there). -/
def editExecute (filePath fileContent oldString newString : String)
    (replaceAll : Bool) : ToolResult × String :=
  if replaceAll then
    (ToolResult.mkSuccess ("Successfully edited " ++ filePath),
     rustReplaceAll fileContent oldString newString)
  else
    let count := strMatchesCount fileContent oldString
    if count = 0 then
      (ToolResult.mkError ("String not found in file: " ++ oldString), fileContent)
    else if 1 < count then
      (ToolResult.mkError ("String appears " ++ toString count ++
        " times. Use replace_all=true or provide more context"), fileContent)
    else
      (ToolResult.mkSuccess ("Successfully edited " ++ filePath),
       rustReplacen fileContent oldString newString 1)

/-! ## The todo tool (`src/tools/todo.rs`) -/

/-- `TodoStatus` from `src/tools/todo.rs`. -/
inductive TodoStatus where
  | pending
  | inProgress
  | completed
  deriving Repr, DecidableEq

/-- `TodoItem` from `src/tools/todo.rs`. -/
structure TodoItem where
  content : String
  status : TodoStatus
  active_form : String
  deriving Repr, DecidableEq

/-- The status icon used by `format_todos`. -/
def statusIcon : TodoStatus → String
  | .pending => "[ ]"
  | .inProgress => "[→]"
  | .completed => "[✓]"

/-- The enumerated body of `format_todos` starting at index `i`. -/
def formatTodosAux : Nat → List TodoItem → String
  | _, [] => ""
  | i, t :: ts =>
    toString (i + 1) ++ ". " ++ statusIcon t.status ++ " " ++ t.content ++ "\n" ++
      formatTodosAux (i + 1) ts

/-- `format_todos` (`src/tools/todo.rs` lines 72-83). -/
def formatTodos (todos : List TodoItem) : String :=
  "Current todos:\n\n" ++ formatTodosAux 0 todos

/-- `TodoTool::execute` (`src/tools/todo.rs` lines 44-69) after the
parameters have been decoded: `stored` is the snapshot file's parsed
content (`none` when the file does not exist); the result pairs the
`ToolResult` with the stored list after the call.  If `action` is
`"read"` or no todos were provided, the current list is returned;
otherwise the provided todos are written. -/
def todoExecute (stored : Option (List TodoItem)) (action : Option String)
    (todos : Option (List TodoItem)) : ToolResult × Option (List TodoItem) :=
  if action = some "read" ∨ todos.isNone then
    match stored with
    | some ts => (ToolResult.mkSuccess (formatTodos ts), stored)
    | none => (ToolResult.mkSuccess "No todos found", stored)
  else
    match todos with
    | some ts => (ToolResult.mkSuccess (formatTodos ts), some ts)
    | none => (ToolResult.mkError "No todos provided", stored)

/-! ## The agent loop (`src/agent/agent_loop.rs`)

The `LlmClient::chat` transport is modelled as a scripted list of
assistant replies consumed one per query (an empty script models a
transport failure).  Argument parsing plus `ToolRegistry::execute_tool`
is modelled as an oracle `exec : ToolCall → Except String ToolResult`:
an `Except.error` is the process-level `anyhow` error path (malformed
arguments or a registry `Err`), which `?` propagates out of `run`. -/

/-- A `system`-role message as built by `set_system_prompt`. -/
def systemMessage (p : String) : Message :=
  { role := "system", content := p, tool_calls := none, tool_call_id := none }

/-- A `user`-role message as built at the top of `run`. -/
def userMessage (p : String) : Message :=
  { role := "user", content := p, tool_calls := none, tool_call_id := none }

/-- The `tool`-role message pushed by `execute_tool_call`
(`src/agent/agent_loop.rs` lines 128-155): the raw output on success, or
the `Error: `-prefixed error text (`"Unknown error"` when the error
field is absent) on failure, tagged with the originating call's id. -/
def toolMessage (tc : ToolCall) (r : ToolResult) : Message :=
  { role := "tool"
    content :=
      if r.success then r.output
      else "Error: " ++ r.error.getD "Unknown error"
    tool_calls := none
    tool_call_id := some tc.id }

/-- The `tool` message a successful oracle call produces for `tc`; used
to state what `executeAll` appends when every call's oracle result is
`Except.ok` (the `Except.error` arm is a placeholder that those
statements never reach). -/
def toolMessageFor (exec : ToolCall → Except String ToolResult) (tc : ToolCall) :
    Message :=
  match exec tc with
  | .ok r => toolMessage tc r
  | .error _ => toolMessage tc (ToolResult.mkError "")

/-- The loop over `tool_calls` in `run` (`src/agent/agent_loop.rs`
lines 87-90): execute each call in order, appending one `tool` message
per call; an `Except.error` from the oracle aborts immediately,
returning the messages accumulated so far. -/
def executeAll (exec : ToolCall → Except String ToolResult) :
    List Message → List ToolCall → Except (String × List Message) (List Message)
  | msgs, [] => .ok msgs
  | msgs, tc :: tcs =>
    match exec tc with
    | .error e => .error (e, msgs)
    | .ok r => executeAll exec (msgs ++ [toolMessage tc r]) tcs

/-- How one `run` call ends. -/
inductive RunOutcome where
  | final (content : String)
  | limitError
  | transportError
  | toolError (e : String)
  deriving Repr, DecidableEq

/-- Observable result of a `run` call: the outcome, the message history
`self.messages` after the call, and the number of model queries issued. -/
structure RunResult where
  outcome : RunOutcome
  history : List Message
  queries : Nat
  deriving Repr, DecidableEq

/-- The `loop` body of `AgentLoop::run` (`src/agent/agent_loop.rs`
lines 53-104).  `fuel` is the number of passes still allowed: the code
increments `iteration` and bails with the iteration-limit error once
`iteration > max_iterations`, before issuing that pass's query, so a
fresh `run` with ceiling `max` performs at most `max` queries.  Each
pass consumes the next scripted reply; a reply carrying `tool_calls`
(even an empty list) is appended and its calls executed, then the loop
repeats; a reply without `tool_calls` is appended and its content
returned. -/
def runAux (exec : ToolCall → Except String ToolResult) :
    Nat → List Message → List Message → Nat → RunResult
  | 0, _, msgs, q => ⟨.limitError, msgs, q⟩
  | _ + 1, [], msgs, q => ⟨.transportError, msgs, q⟩
  | fuel + 1, resp :: rest, msgs, q =>
    match resp.tool_calls with
    | some tcs =>
      match executeAll exec (msgs ++ [resp]) tcs with
      | .error (e, partialMsgs) => ⟨.toolError e, partialMsgs, q + 1⟩
      | .ok msgs2 => runAux exec fuel rest msgs2 (q + 1)
    | none => ⟨.final resp.content, msgs ++ [resp], q + 1⟩

/-- The `AgentLoop` state: its message history and iteration ceiling
(`src/agent/agent_loop.rs` lines 8-14; the transport client and registry
are passed to `run` explicitly in this model). -/
structure AgentLoop where
  messages : List Message
  maxIterations : Nat
  deriving Repr, DecidableEq

/-- `AgentLoop::new` (`src/agent/agent_loop.rs` lines 17-25): empty
history, ceiling 25. -/
def AgentLoop.new : AgentLoop :=
  { messages := [], maxIterations := 25 }

/-- `AgentLoop::set_system_prompt` (`src/agent/agent_loop.rs`
lines 27-34): pushes a `system` message. -/
def AgentLoop.setSystemPrompt (a : AgentLoop) (p : String) : AgentLoop :=
  { a with messages := a.messages ++ [systemMessage p] }

/-- `AgentLoop::clear_history` (`src/agent/agent_loop.rs`
lines 164-166): `self.messages.clear()`. -/
def AgentLoop.clearHistory (a : AgentLoop) : AgentLoop :=
  { a with messages := [] }

/-- `AgentLoop::run` (`src/agent/agent_loop.rs` lines 36-105): push the
user message, then run the loop with a fresh iteration counter and the
full `max_iterations` budget. -/
def AgentLoop.run (a : AgentLoop) (exec : ToolCall → Except String ToolResult)
    (script : List Message) (userPrompt : String) : RunResult :=
  runAux exec a.maxIterations script (a.messages ++ [userMessage userPrompt]) 0

/-! ## Concrete instances used by counterexamples and witnesses -/

/-- A `remote` definition carrying an empty-string endpoint URL, as
parsed from a definition file with `"server_url": ""`. -/
def emptyUrlDef : ToolDefinition :=
  { name := "t", description := "d", parameters := "", implementation_type := .mcpServer,
    script_path := none, server_url := some "", timeout_ms := none }

/-- A `script` definition with no `script_path` field, as parsed from a
definition file omitting it. -/
def noPathScriptDef : ToolDefinition :=
  { name := "sc", description := "d", parameters := "", implementation_type := .script,
    script_path := none, server_url := none, timeout_ms := none }

/-- A `remote` definition with no `server_url` field, as parsed from a
definition file omitting it. -/
def noUrlMcpDef : ToolDefinition :=
  { name := "rm", description := "d", parameters := "", implementation_type := .mcpServer,
    script_path := none, server_url := none, timeout_ms := none }

/-- The stdout text `{"success": true, "output": "x", "error": "boom"}`
(braces escaped here), which `serde_json::from_slice::<ToolResult>`
deserializes successfully: all three fields are present with the right
types, so the parse yields `success = true` together with a present
`error` field. -/
def violatingStdout : String :=
  "\x7b\"success\": true, \"output\": \"x\", \"error\": \"boom\"\x7d"

/-- The serde parse outcome on `violatingStdout` (and on no other input
relevant here): the verbatim `ToolResult` with `success = true`,
`output = "x"` and `error = some "boom"`. -/
def serdeParseViolating : String → Option ToolResult := fun s =>
  if s = violatingStdout then
    some { success := true, output := "x", error := some "boom" }
  else
    none

/-- A lookup function for the per-user definitions directory containing
a single file `sc.json` whose definition is tagged `script` but carries
no `script_path` (so `ToolDefinition::from_file` fails validation on
it). -/
def userFsBad : String → Option (Except String ToolDefinition) := fun n =>
  if n = "sc" then some (noPathScriptDef.fromParsed (some "/home/u/.code_agent/tools"))
  else none

/-- A registry with an empty cache over `userFsBad`. -/
def regBad : Registry :=
  { tool_definitions := [], userToolsDir := some userFsBad }

/-- A well-formed builtin-tagged definition for the lazy-load witness. -/
def goodDef : ToolDefinition :=
  { name := "gt", description := "d", parameters := "", implementation_type := .builtin,
    script_path := none, server_url := none, timeout_ms := none }

/-- A definitions directory containing exactly `gt.json`, holding
`goodDef`, loaded through `ToolDefinition::from_file`. -/
def userFsGood : String → Option (Except String ToolDefinition) := fun n =>
  if n = "gt" then some (goodDef.fromParsed (some "/home/u/.code_agent/tools"))
  else none

/-- A registry with an empty cache over `userFsGood`. -/
def regFresh : Registry :=
  { tool_definitions := [], userToolsDir := some userFsGood }

/-- A tool call with id `call-1`. -/
def tcA : ToolCall :=
  { id := "call-1", toolType := "function", name := "read", arguments := "\x7b\x7d" }

/-- A tool call with id `call-2`. -/
def tcB : ToolCall :=
  { id := "call-2", toolType := "function", name := "glob", arguments := "\x7b\x7d" }

/-- An execution oracle that always succeeds with output `ok`. -/
def execK : ToolCall → Except String ToolResult :=
  fun _ => .ok (ToolResult.mkSuccess "ok")

/-- An assistant reply requesting two tool calls. -/
def respTwoCalls : Message :=
  { role := "assistant", content := "", tool_calls := some [tcA, tcB],
    tool_call_id := none }

/-- An assistant reply with no tool calls (a final answer). -/
def respFinal : Message :=
  { role := "assistant", content := "done", tool_calls := none, tool_call_id := none }

/-- A child process that never exits on its own, with its (never
collected) exit observation. -/
def hungChild : ChildProc :=
  { exitTime := none, statusSuccess := true, code := some 0, stdout := "", stderr := "" }

/-- A child process that exits immediately with a successful status. -/
def promptChild : ChildProc :=
  { exitTime := some 0, statusSuccess := true, code := some 0, stdout := "plain",
    stderr := "" }

/-! ## Theorems -/

/-- Helper: `toolMessageFor` always carries the originating call's id. -/
theorem toolMessageFor_tool_call_id (exec : ToolCall → Except String ToolResult)
    (tc : ToolCall) : (toolMessageFor exec tc).tool_call_id = some tc.id := by
  unfold toolMessageFor
  cases exec tc <;> rfl

/-- Helper: `toolMessageFor` always has the `tool` role. -/
theorem toolMessageFor_role (exec : ToolCall → Except String ToolResult)
    (tc : ToolCall) : (toolMessageFor exec tc).role = "tool" := by
  unfold toolMessageFor
  cases exec tc <;> rfl

/-- Helper: when every call's oracle result is `ok`, `executeAll`
appends exactly one `tool` message per call, in order. -/
theorem executeAll_ok (exec : ToolCall → Except String ToolResult) :
    ∀ (tcs : List ToolCall) (msgs : List Message), (∀ tc ∈ tcs, (exec tc).isOk) →
      executeAll exec msgs tcs = .ok (msgs ++ tcs.map (toolMessageFor exec)) := by
  intro tcs
  induction tcs with
  | nil => intro msgs _; simp [executeAll]
  | cons tc rest ih =>
    intro msgs h
    have htc : (exec tc).isOk := h tc (by simp)
    cases hx : exec tc with
    | error e => rw [hx] at htc; simp [Except.isOk, Except.toBool] at htc
    | ok r =>
      have hmsg : toolMessageFor exec tc = toolMessage tc r := by
        simp [toolMessageFor, hx]
      have hrest := ih (msgs ++ [toolMessage tc r]) (fun u hu => h u (by simp [hu]))
      simp [executeAll, hx, hrest, hmsg]

/-- Helper: as long as every scripted reply requests tool calls and
every execution succeeds, each pass consumes one reply, one unit of
fuel, and issues one query; exhausting the fuel yields the
iteration-limit outcome after exactly `n` further queries. -/
theorem runAux_limit_all_tool_calls (exec : ToolCall → Except String ToolResult)
    (hexec : ∀ tc, (exec tc).isOk) :
    ∀ (n : Nat) (script msgs : List Message) (q : Nat),
      n ≤ script.length → (∀ m ∈ script, m.tool_calls.isSome) →
      (runAux exec n script msgs q).outcome = .limitError
      ∧ (runAux exec n script msgs q).queries = q + n := by
  intro n
  induction n with
  | zero => intro script msgs q _ _; exact ⟨rfl, rfl⟩
  | succ k ih =>
    intro script msgs q hlen hall
    cases script with
    | nil => simp at hlen
    | cons resp rest =>
      rcases Option.isSome_iff_exists.mp (hall resp (by simp)) with ⟨tcs, htcs⟩
      have hstep : runAux exec (k + 1) (resp :: rest) msgs q
          = runAux exec k rest ((msgs ++ [resp]) ++ tcs.map (toolMessageFor exec))
              (q + 1) := by
        simp [runAux, htcs,
          executeAll_ok exec tcs (msgs ++ [resp]) (fun tc _ => hexec tc)]
      rw [hstep]
      have hrec := ih rest ((msgs ++ [resp]) ++ tcs.map (toolMessageFor exec)) (q + 1)
        (by simpa using hlen) (fun m hm => hall m (by simp [hm]))
      exact ⟨hrec.1, by rw [hrec.2]; omega⟩

/-- Helper: when the replies before `resp` all request tool calls, every
execution succeeds, and the fuel covers them, the loop returns `resp`'s
content after exactly `pre.length + 1` further queries. -/
theorem runAux_final_after (exec : ToolCall → Except String ToolResult)
    (hexec : ∀ tc, (exec tc).isOk) :
    ∀ (pre : List Message) (resp : Message) (rest msgs : List Message) (q fuel : Nat),
      (∀ m ∈ pre, m.tool_calls.isSome) → resp.tool_calls = none →
      pre.length < fuel →
      (runAux exec fuel (pre ++ resp :: rest) msgs q).outcome = .final resp.content
      ∧ (runAux exec fuel (pre ++ resp :: rest) msgs q).queries = q + (pre.length + 1) := by
  intro pre
  induction pre with
  | nil =>
    intro resp rest msgs q fuel _ hresp hfuel
    cases fuel with
    | zero => omega
    | succ f => simp [runAux, hresp]
  | cons m pre ih =>
    intro resp rest msgs q fuel hall hresp hfuel
    cases fuel with
    | zero => simp at hfuel
    | succ f =>
      rcases Option.isSome_iff_exists.mp (hall m (by simp)) with ⟨tcs, htcs⟩
      have hstep : runAux exec (f + 1) ((m :: pre) ++ resp :: rest) msgs q
          = runAux exec f (pre ++ resp :: rest)
              ((msgs ++ [m]) ++ tcs.map (toolMessageFor exec)) (q + 1) := by
        simp [runAux, htcs,
          executeAll_ok exec tcs (msgs ++ [m]) (fun tc _ => hexec tc)]
      rw [hstep]
      have hrec := ih resp rest ((msgs ++ [m]) ++ tcs.map (toolMessageFor exec)) (q + 1)
        f (fun u hu => hall u (by simp [hu])) hresp
        (by simp only [List.length_cons] at hfuel; omega)
      exact ⟨hrec.1, by rw [hrec.2]; simp only [List.length_cons]; omega⟩

/-- Helper: a child that never exits on its own is killed by the poll
loop once the elapsed time reaches the timeout. -/
theorem waitAux_killed (c : Child) (hc : c.exitTime = none) (t : Nat) :
    ∀ fuel e, t ≤ e + 100 * fuel → waitAux c t (fuel + 1) e = .killed := by
  intro fuel
  induction fuel with
  | zero =>
    intro e h
    have hte : t ≤ e := by omega
    simp [waitAux, Child.hasExited, hc, hte]
  | succ n ih =>
    intro e h
    by_cases hte : t ≤ e
    · simp [waitAux, Child.hasExited, hc, hte]
    · have hstep : waitAux c t (n + 1 + 1) e = waitAux c t (n + 1) (e + 100) := by
        simp [waitAux, Child.hasExited, hc, hte]
      rw [hstep]
      exact ih (e + 100) (by omega)

/-- Helper: with enough fuel the poll loop always resolves to `exited`
or `killed`. -/
theorem waitAux_resolves (c : Child) (t : Nat) :
    ∀ fuel e, t ≤ e + 100 * fuel → waitAux c t (fuel + 1) e ≠ .diverge := by
  intro fuel
  induction fuel with
  | zero =>
    intro e h
    have hte : t ≤ e := by omega
    by_cases hx : c.hasExited e <;> simp [waitAux, hx, hte]
  | succ n ih =>
    intro e h
    by_cases hx : c.hasExited e
    · simp [waitAux, hx]
    · by_cases hte : t ≤ e
      · simp [waitAux, hx, hte]
      · have hstep : waitAux c t (n + 1 + 1) e = waitAux c t (n + 1) (e + 100) := by
          simp [waitAux, hx, hte]
        rw [hstep]
        exact ih (e + 100) (by omega)

/-- Helper: `wait_with_timeout` always resolves — every call returns
with the child either exited or killed, never still running. -/
theorem waitWithTimeout_ne_diverge (c : Child) (t : Nat) :
    waitWithTimeout c t ≠ .diverge := by
  have h : t ≤ 0 + 100 * (t / 100 + 1) := by omega
  simpa [waitWithTimeout] using waitAux_resolves c t (t / 100 + 1) 0 h

/-- C5: a subprocess child still running when the configured timeout
(default 120000 ms) elapses is forcibly killed by the poll loop, and the
executor returns a failed `ToolResult` whose error text states the
timeout; moreover the poll loop always returns with the child resolved
(exited or killed), never leaving it running. -/
theorem subprocess_timeout_kills (cp : ChildProc)
    (parse : String → Option ToolResult) (timeoutMs : Option Nat)
    (hc : cp.exitTime = none) :
    waitWithTimeout cp.toChild (timeoutMs.getD 120000) = .killed
    ∧ executeScriptModel cp parse timeoutMs
        = ToolResult.mkError ("Script execution timed out after "
            ++ toString (timeoutMs.getD 120000) ++ "ms")
    ∧ (executeScriptModel cp parse timeoutMs).success = false
    ∧ (∀ (c2 : Child) (t : Nat), waitWithTimeout c2 t ≠ .diverge) := by
  set t := timeoutMs.getD 120000 with ht
  have hkill : waitWithTimeout cp.toChild t = .killed := by
    have h : t ≤ 0 + 100 * (t / 100 + 1) := by omega
    simpa [waitWithTimeout] using waitAux_killed cp.toChild hc t (t / 100 + 1) 0 h
  refine ⟨hkill, ?_, ?_, fun c2 t2 => waitWithTimeout_ne_diverge c2 t2⟩
  · simp [executeScriptModel, hkill, interpretScriptOutput, ht]
  · simp [executeScriptModel, hkill, interpretScriptOutput, ToolResult.mkError]

/-- C5 witness: a child that never exits, under the default timeout, is
killed and yields the timeout error result. -/
theorem subprocess_timeout_kills_witness :
    waitWithTimeout hungChild.toChild ((none : Option Nat).getD 120000) = .killed
    ∧ executeScriptModel hungChild (fun _ => none) none
        = ToolResult.mkError ("Script execution timed out after "
            ++ toString ((none : Option Nat).getD 120000) ++ "ms")
    ∧ (executeScriptModel hungChild (fun _ => none) none).success = false
    ∧ (∀ (c2 : Child) (t : Nat), waitWithTimeout c2 t ≠ .diverge) :=
  subprocess_timeout_kills hungChild (fun _ => none) none rfl

/-- C6: when the child exits before the timeout, a success status leads
to an attempted structured parse of stdout (returned verbatim on
success, with raw stdout as a successful plain-text result on parse
failure), and a failure status yields a failed result whose error text
contains the exit code and the stderr text. -/
theorem subprocess_exit_semantics (code : Option Int) (stdout stderr : String)
    (parse : String → Option ToolResult) (t : Option Nat) :
    (∀ r, parse stdout = some r →
        interpretScriptOutput (.exited true code stdout stderr) parse t = r)
    ∧ (parse stdout = none →
        interpretScriptOutput (.exited true code stdout stderr) parse t
          = ToolResult.mkSuccess stdout)
    ∧ interpretScriptOutput (.exited false code stdout stderr) parse t
        = ToolResult.mkError ("Script exited with code "
            ++ toString (code.getD (-1)) ++ ": " ++ stderr)
    ∧ (interpretScriptOutput (.exited false code stdout stderr) parse t).success
        = false
    ∧ (∃ pre mid, (interpretScriptOutput (.exited false code stdout stderr) parse t).error
        = some (pre ++ toString (code.getD (-1)) ++ (mid ++ stderr)))
    ∧ (∀ cp : ChildProc, waitWithTimeout cp.toChild (t.getD 120000) = .exited →
        executeScriptModel cp parse t
          = interpretScriptOutput (.exited cp.statusSuccess cp.code cp.stdout cp.stderr)
              parse t) := by
  refine ⟨?_, ?_, ?_, ?_, ?_, ?_⟩
  · intro r hr
    simp [interpretScriptOutput, hr]
  · intro hr
    simp [interpretScriptOutput, hr]
  · simp [interpretScriptOutput]
  · simp [interpretScriptOutput, ToolResult.mkError]
  · refine ⟨"Script exited with code ", ": ", ?_⟩
    simp [interpretScriptOutput, ToolResult.mkError, String.append_assoc]
  · intro cp hw
    simp [executeScriptModel, hw]

/-- C6 witness: a successfully exiting child whose stdout is not a
structured `ToolResult` yields raw stdout as a successful plain-text
result; a child exiting with code 3 and stderr `bad` yields the error
text containing both. -/
theorem subprocess_exit_semantics_witness :
    interpretScriptOutput (.exited true (some 0) "plain" "") (fun _ => none) none
      = ToolResult.mkSuccess "plain"
    ∧ interpretScriptOutput (.exited false (some 3) "" "bad") (fun _ => none) none
      = ToolResult.mkError "Script exited with code 3: bad"
    ∧ executeScriptModel promptChild (fun _ => none) none
      = interpretScriptOutput (.exited true (some 0) "plain" "") (fun _ => none) none :=
  ⟨(subprocess_exit_semantics (some 0) "plain" "" (fun _ => none) none).2.1 rfl,
   (subprocess_exit_semantics (some 3) "" "bad" (fun _ => none) none).2.2.1,
   (subprocess_exit_semantics (some 0) "plain" "" (fun _ => none) none).2.2.2.2.2
      promptChild (by decide)⟩

/-- C1: in any pass whose assistant reply carries tool-call requests
(and whose executions all complete without a process-level error), the
loop appends the assistant reply and then exactly one `tool` message per
requested call, in the order listed, before the next model query (the
recursive call on the remaining script); each appended message has role
`tool` and carries its originating call's id, and — the transport
assigning ids unique within one assistant turn — each `tool` message's
back-reference id corresponds to exactly one of the immediately
preceding assistant message's requested calls. -/
theorem agent_pass_tool_message_discipline
    (exec : ToolCall → Except String ToolResult) (resp : Message)
    (rest msgs : List Message) (tcs : List ToolCall) (fuel q : Nat)
    (hresp : resp.tool_calls = some tcs)
    (hexec : ∀ tc ∈ tcs, (exec tc).isOk) :
    runAux exec (fuel + 1) (resp :: rest) msgs q
      = runAux exec fuel rest ((msgs ++ [resp]) ++ tcs.map (toolMessageFor exec))
          (q + 1)
    ∧ (tcs.map (toolMessageFor exec)).map Message.tool_call_id
        = tcs.map (fun tc => some tc.id)
    ∧ (∀ tc ∈ tcs, (toolMessageFor exec tc).role = "tool")
    ∧ ((tcs.map ToolCall.id).Nodup →
        ∀ m ∈ tcs.map (toolMessageFor exec),
          ∃! tc, tc ∈ tcs ∧ m.tool_call_id = some tc.id) := by
  refine ⟨?_, ?_, ?_, ?_⟩
  · simp [runAux, hresp, executeAll_ok exec tcs (msgs ++ [resp]) hexec]
  · simp [List.map_map]
    intro tc _
    simp [Function.comp, toolMessageFor_tool_call_id]
  · intro tc _
    exact toolMessageFor_role exec tc
  · intro hnodup m hm
    rcases List.mem_map.mp hm with ⟨tc0, htc0, rfl⟩
    refine ⟨tc0, ⟨htc0, toolMessageFor_tool_call_id exec tc0⟩, ?_⟩
    rintro tc1 ⟨htc1, hid1⟩
    have hids : tc0.id = tc1.id := by
      have h0 := toolMessageFor_tool_call_id exec tc0
      rw [h0] at hid1
      exact Option.some.inj hid1
    exact List.inj_on_of_nodup_map hnodup htc1 htc0 hids.symm

/-- C1 witness: one pass over an assistant reply requesting two calls
with distinct ids appends exactly its two `tool` messages before the
next query. -/
theorem agent_pass_tool_message_discipline_witness :
    runAux execK 1 [respTwoCalls] [] 0
      = runAux execK 0 [] (([] ++ [respTwoCalls])
          ++ [tcA, tcB].map (toolMessageFor execK)) 1 :=
  (agent_pass_tool_message_discipline execK respTwoCalls [] [] [tcA, tcB] 0 0
      rfl (fun _ _ => rfl)).1

/-- C2: the iteration ceiling defaults to 25; against a transport whose
every reply requests at least one tool call (all executions
succeeding), `run` ends with the iteration-limit error after issuing
exactly `max_iterations` model queries, never more; and against a
transport whose Nth reply (N at most the ceiling) carries no tool calls
while the earlier ones all do, `run` returns that reply's text content
having issued exactly N queries. -/
theorem agent_loop_query_budget (a : AgentLoop)
    (exec : ToolCall → Except String ToolResult) (prompt : String)
    (hexec : ∀ tc, (exec tc).isOk) :
    AgentLoop.new.maxIterations = 25
    ∧ (∀ script : List Message,
        (∀ m ∈ script, ∃ tc tcs, m.tool_calls = some (tc :: tcs)) →
        a.maxIterations ≤ script.length →
        (a.run exec script prompt).outcome = .limitError
        ∧ (a.run exec script prompt).queries = a.maxIterations)
    ∧ (∀ (pre : List Message) (resp : Message) (rest : List Message),
        (∀ m ∈ pre, ∃ tc tcs, m.tool_calls = some (tc :: tcs)) →
        resp.tool_calls = none → pre.length + 1 ≤ a.maxIterations →
        (a.run exec (pre ++ resp :: rest) prompt).outcome = .final resp.content
        ∧ (a.run exec (pre ++ resp :: rest) prompt).queries = pre.length + 1) := by
  refine ⟨rfl, ?_, ?_⟩
  · intro script hall hlen
    have hall2 : ∀ m ∈ script, m.tool_calls.isSome := by
      intro m hm
      rcases hall m hm with ⟨tc, tcs, h2⟩
      simp [h2]
    have := runAux_limit_all_tool_calls exec hexec a.maxIterations script
      (a.messages ++ [userMessage prompt]) 0 hlen hall2
    exact ⟨this.1, by simpa [AgentLoop.run] using this.2⟩
  · intro pre resp rest hall hresp hlen
    have hall2 : ∀ m ∈ pre, m.tool_calls.isSome := by
      intro m hm
      rcases hall m hm with ⟨tc, tcs, h2⟩
      simp [h2]
    have := runAux_final_after exec hexec pre resp rest
      (a.messages ++ [userMessage prompt]) 0 a.maxIterations hall2 hresp
      (by omega)
    exact ⟨this.1, by simpa [AgentLoop.run] using this.2⟩

/-- C2 witness: with a ceiling of 2, a transport that always requests a
tool call ends in the iteration-limit error after exactly 2 queries,
and a transport answering plainly on the second query returns `done`
after exactly 2 queries. -/
theorem agent_loop_query_budget_witness :
    (((⟨[], 2⟩ : AgentLoop).run execK [respTwoCalls, respTwoCalls] "hi").outcome
        = RunOutcome.limitError
      ∧ ((⟨[], 2⟩ : AgentLoop).run execK [respTwoCalls, respTwoCalls] "hi").queries = 2)
    ∧ (((⟨[], 2⟩ : AgentLoop).run execK ([respTwoCalls] ++ respFinal :: []) "hi").outcome
        = RunOutcome.final "done"
      ∧ ((⟨[], 2⟩ : AgentLoop).run execK ([respTwoCalls] ++ respFinal :: []) "hi").queries
        = 2) := by
  have h := agent_loop_query_budget (⟨[], 2⟩ : AgentLoop) execK "hi" (fun _ => rfl)
  have hreq : ∀ m ∈ [respTwoCalls, respTwoCalls], ∃ tc tcs, m.tool_calls = some (tc :: tcs) := by
    intro m hm
    have : m = respTwoCalls := by
      rcases List.mem_cons.mp hm with h1 | h1
      · exact h1
      · simpa using h1
    rw [this]
    exact ⟨tcA, [tcB], rfl⟩
  have hreq1 : ∀ m ∈ [respTwoCalls], ∃ tc tcs, m.tool_calls = some (tc :: tcs) := by
    intro m hm
    have : m = respTwoCalls := by simpa using hm
    rw [this]
    exact ⟨tcA, [tcB], rfl⟩
  exact ⟨h.2.1 [respTwoCalls, respTwoCalls] hreq (by simp),
    h.2.2 [respTwoCalls] respFinal [] hreq1 rfl (by simp)⟩

/-- C8 counterexample: resolving a name whose definition file exists but
fails validation does not yield the `"definition not found"` condition —
`get_tool_definition` propagates the load error verbatim (here the
script-without-path validation message), so "absence or validation
failure" do not share one failure condition as the claim states. -/
theorem resolve_validation_failure_message :
    Registry.getToolDefinition regBad "sc"
      = .error "Tool 'sc' has implementation_type 'script' but no script_path"
    ∧ ("Tool 'sc' has implementation_type 'script' but no script_path" : String)
      ≠ "Tool definition not found: sc" := by
  exact ⟨rfl, by decide⟩

/-- C8 amended: resolving a tool name returns the cached definition when
present; otherwise it performs a single filesystem lookup for
`<name>.json` in the per-user definitions directory; when the file is
absent (or no user directory is configured) it fails with the
`"Tool definition not found"` condition, while a load (parse,
path-resolution or validation) failure of a present file propagates
that failure's own message; after a matching well-formed definition
file is placed in the directory, the same name resolves successfully on
the next call and the definition is cached, so the call after that is
served from the cache. -/
theorem registry_resolution (reg : Registry) (name : String) :
    (∀ d, reg.tool_definitions.lookup name = some d →
        reg.getToolDefinition name = .ok (d, reg))
    ∧ (∀ fs, reg.userToolsDir = some fs → reg.tool_definitions.lookup name = none →
        (fs name = none →
          reg.getToolDefinition name = .error ("Tool definition not found: " ++ name))
        ∧ (∀ e, fs name = some (.error e) → reg.getToolDefinition name = .error e)
        ∧ (∀ d, fs name = some (.ok d) →
            reg.getToolDefinition name
              = .ok (d, { reg with tool_definitions := (name, d) :: reg.tool_definitions })
            ∧ Registry.getToolDefinition
                { reg with tool_definitions := (name, d) :: reg.tool_definitions } name
              = .ok (d, { reg with tool_definitions := (name, d) :: reg.tool_definitions })))
    ∧ (reg.userToolsDir = none → reg.tool_definitions.lookup name = none →
        reg.getToolDefinition name = .error ("Tool definition not found: " ++ name)) := by
  refine ⟨?_, ?_, ?_⟩
  · intro d hd
    simp [Registry.getToolDefinition, hd]
  · intro fs hfs hmiss
    refine ⟨?_, ?_, ?_⟩
    · intro habs
      simp [Registry.getToolDefinition, hmiss, hfs, habs]
    · intro e he
      simp [Registry.getToolDefinition, hmiss, hfs, he]
    · intro d hd
      constructor
      · simp [Registry.getToolDefinition, hmiss, hfs, hd]
      · simp [Registry.getToolDefinition, List.lookup]
  · intro hfs hmiss
    simp [Registry.getToolDefinition, hmiss, hfs]

/-- C8 amended witness: with an empty cache over a directory holding a
well-formed `gt.json`, resolving `"gt"` loads and caches the definition,
and the next call is served from the cache. -/
theorem registry_resolution_witness :
    Registry.getToolDefinition regFresh "gt"
      = .ok (goodDef, { regFresh with tool_definitions := [("gt", goodDef)] })
    ∧ Registry.getToolDefinition
        { regFresh with tool_definitions := [("gt", goodDef)] } "gt"
      = .ok (goodDef, { regFresh with tool_definitions := [("gt", goodDef)] }) :=
  ((registry_resolution regFresh "gt").2.1 userFsGood rfl rfl).2.2 goodDef rfl

/-- C9: the edit tool, invoked with `replace_all = false` on a file whose
content contains the target string more than once (occurrence count as
computed by the code: Rust `str::matches`, non-overlapping), fails with
an error naming the occurrence count and leaves the file content
unchanged. -/
theorem edit_multiple_occurrences_fails (filePath fileContent oldS newS : String)
    (h : 1 < strMatchesCount fileContent oldS) :
    (editExecute filePath fileContent oldS newS false).1.success = false
    ∧ (editExecute filePath fileContent oldS newS false).1.error
        = some ("String appears " ++ toString (strMatchesCount fileContent oldS) ++
            " times. Use replace_all=true or provide more context")
    ∧ (editExecute filePath fileContent oldS newS false).2 = fileContent := by
  have h0 : strMatchesCount fileContent oldS ≠ 0 := by omega
  simp [editExecute, ToolResult.mkError, h, h0]

/-- C9 witness: editing `"xx yy xx"` with target `"xx"` (two
occurrences) and `replace_all = false` fails naming the count 2 and
leaves the content unchanged. -/
theorem edit_multiple_occurrences_fails_witness :
    (editExecute "f.txt" "xx yy xx" "xx" "z" false).1.success = false
    ∧ (editExecute "f.txt" "xx yy xx" "xx" "z" false).1.error
        = some ("String appears " ++ toString (strMatchesCount "xx yy xx" "xx") ++
            " times. Use replace_all=true or provide more context")
    ∧ (editExecute "f.txt" "xx yy xx" "xx" "z" false).2 = "xx yy xx" :=
  edit_multiple_occurrences_fails "f.txt" "xx yy xx" "xx" "z" (by decide)

/-- C10: a well-formed todo invocation with the `todos` field absent
behaves exactly as a read regardless of the `action` field and leaves
the stored list untouched; every todo execution returns a successful
result, so the `"No todos provided"` error branch is unreachable. -/
theorem todo_absent_todos_reads :
    (∀ stored action,
        todoExecute stored action none = todoExecute stored (some "read") none
        ∧ (todoExecute stored action none).2 = stored)
    ∧ (∀ stored action todos, (todoExecute stored action todos).1.success = true)
    ∧ (∀ stored action todos,
        (todoExecute stored action todos).1 ≠ ToolResult.mkError "No todos provided") := by
  refine ⟨?_, ?_, ?_⟩
  · intro stored action
    cases stored <;> simp [todoExecute]
  · intro stored action todos
    cases todos with
    | none => cases stored <;> simp [todoExecute, ToolResult.mkSuccess]
    | some ts =>
      by_cases ha : action = some "read"
      · cases stored <;> simp [todoExecute, ha, ToolResult.mkSuccess]
      · cases stored <;> simp [todoExecute, ha, ToolResult.mkSuccess]
  · intro stored action todos h
    cases todos with
    | none => cases stored <;> simp [todoExecute, ToolResult.mkSuccess, ToolResult.mkError] at h
    | some ts =>
      by_cases ha : action = some "read"
      · cases stored <;>
          simp [todoExecute, ha, ToolResult.mkSuccess, ToolResult.mkError] at h
      · cases stored <;>
          simp [todoExecute, ha, ToolResult.mkSuccess, ToolResult.mkError] at h

/-- C4 counterexample: a script whose stdout is the JSON object with
`success` true, `output` `"x"` and `error` `"boom"` parses as a
structured `ToolResult`, which `execute_script` returns verbatim — a
result produced by the subprocess strategy with `success = true` and a
present `error` field, so output and error are not mutually exclusive
for parsed results. -/
theorem parsed_tool_result_not_exclusive :
    (interpretScriptOutput (.exited true (some 0) violatingStdout "")
        serdeParseViolating none).success = true
    ∧ (interpretScriptOutput (.exited true (some 0) violatingStdout "")
        serdeParseViolating none).error = some "boom"
    ∧ ¬ (interpretScriptOutput (.exited true (some 0) violatingStdout "")
        serdeParseViolating none).exclusive := by
  refine ⟨rfl, rfl, ?_⟩
  intro h
  have := h.1 rfl
  simp [interpretScriptOutput, serdeParseViolating] at this

/-- C4 amended: every `ToolResult` synthesized through the
`ToolResult::success` / `ToolResult::error` constructors is mutually
exclusive by construction — this covers all strategy-built results
(missing script, non-zero exit, timeout, plain-text fallback, remote
transport failure, remote error envelope, missing result field,
stringified fallback) — but a result obtained by structured-parsing a
script's stdout or a remote `result` object is returned verbatim and is
exclusive only if the parsed value itself is. -/
theorem tool_result_exclusivity_by_construction :
    (∀ s, (ToolResult.mkSuccess s).exclusive)
    ∧ (∀ e, (ToolResult.mkError e).exclusive)
    ∧ (∀ outcome parse t, (∀ s r, parse s = some r → r.exclusive) →
        (interpretScriptOutput outcome parse t).exclusive)
    ∧ (∀ env : McpEnvelope, (∀ r str, env.result = some (some r, str) → r.exclusive) →
        (interpretMcpResponse env).exclusive) := by
  refine ⟨?_, ?_, ?_, ?_⟩
  · intro s
    exact ⟨fun _ => rfl, by simp [ToolResult.mkSuccess]⟩
  · intro e
    exact ⟨by simp [ToolResult.mkError], fun _ => rfl⟩
  · intro outcome parse t h
    cases outcome with
    | exited ss code so se =>
      cases ss with
      | true =>
        cases hp : parse so with
        | some r =>
          have := h so r hp
          simpa [interpretScriptOutput, hp] using this
        | none =>
          simp [interpretScriptOutput, hp, ToolResult.mkSuccess, ToolResult.exclusive]
      | false =>
        simp [interpretScriptOutput, ToolResult.mkError, ToolResult.exclusive]
    | timedOut =>
      simp [interpretScriptOutput, ToolResult.mkError, ToolResult.exclusive]
  · intro env h
    match henv : env.errorMessage, env.result with
    | some msg, _ =>
      simp [interpretMcpResponse, henv, ToolResult.mkError, ToolResult.exclusive]
    | none, _ =>
      cases hres : env.result with
      | none =>
        simp [interpretMcpResponse, henv, hres, ToolResult.mkError, ToolResult.exclusive]
      | some p =>
        cases p with
        | mk parsed str =>
          cases parsed with
          | some r =>
            have := h r str hres
            simpa [interpretMcpResponse, henv, hres] using this
          | none =>
            simp [interpretMcpResponse, henv, hres, ToolResult.mkSuccess,
              ToolResult.exclusive]

/-- C4 amended witness: a timed-out script and a remote reply whose
result object fails the structured parse both yield exclusive results. -/
theorem tool_result_exclusivity_by_construction_witness :
    (interpretScriptOutput .timedOut (fun _ => none) none).exclusive
    ∧ (interpretMcpResponse
        { errorMessage := none, result := some (none, "7") }).exclusive :=
  ⟨tool_result_exclusivity_by_construction.2.2.1 .timedOut (fun _ => none) none
      (fun _ r h => Option.noConfusion h),
   tool_result_exclusivity_by_construction.2.2.2
      { errorMessage := none, result := some (none, "7") }
      (fun r str h => by simp at h)⟩

/-- C3 counterexample: after a system prompt has been set,
`clear_history` calls `self.messages.clear()`, so the history becomes
empty rather than retaining the system-prompt message the claim
requires. -/
theorem clear_history_drops_system_prompt :
    ((AgentLoop.new.setSystemPrompt "p").clearHistory).messages = []
    ∧ systemMessage "p" ∉ ((AgentLoop.new.setSystemPrompt "p").clearHistory).messages
    ∧ (AgentLoop.new.setSystemPrompt "p").messages = [systemMessage "p"] := by
  refine ⟨rfl, ?_, rfl⟩
  simp [AgentLoop.clearHistory]

/-- C3 amended: `clear_history` resets the history to empty
unconditionally — discarding any previously set system-prompt message —
and leaves iteration accounting of future `run` calls unaffected: each
`run` restarts from a fresh counter with the full `max_iterations`
budget, independent of earlier runs. -/
theorem clear_history_amended (a : AgentLoop) :
    (a.clearHistory).messages = []
    ∧ (a.clearHistory).maxIterations = a.maxIterations
    ∧ ∀ exec script prompt,
        (a.clearHistory).run exec script prompt
          = runAux exec a.maxIterations script [userMessage prompt] 0 := by
  refine ⟨rfl, rfl, ?_⟩
  intro exec script prompt
  simp [AgentLoop.run, AgentLoop.clearHistory]

/-- C7 counterexample: a `remote` (`mcp_server`) definition whose
endpoint URL is the empty string passes `ToolDefinition::validate`
(which only checks `is_none`) and is accepted by the load path, so an
empty endpoint is not rejected at load time as the claim requires. -/
theorem validate_accepts_empty_endpoint :
    emptyUrlDef.server_url = some ""
    ∧ emptyUrlDef.implementation_type = ImplementationType.mcpServer
    ∧ emptyUrlDef.validate = .ok ()
    ∧ emptyUrlDef.fromParsed (some "/home/u/.code_agent/tools") = .ok emptyUrlDef :=
  ⟨rfl, rfl, rfl, rfl⟩

/-- C7 amended: a definition tagged `script` with an *absent* script
path, or tagged `remote` with an *absent* endpoint URL, is rejected at
load time by validation (an empty string present in the field is
accepted). -/
theorem load_time_validation_rejects_absent (d : ToolDefinition) (defDir : Option String) :
    (d.implementation_type = .script → d.script_path = none →
        d.fromParsed defDir
          = .error ("Tool '" ++ d.name ++ "' has implementation_type 'script' but no script_path"))
    ∧ (d.implementation_type = .mcpServer → d.server_url = none →
        ∀ d2, d.fromParsed defDir ≠ .ok d2) := by
  constructor
  · intro himpl hpath
    simp [ToolDefinition.fromParsed, ToolDefinition.validate, hpath, himpl]
  · intro himpl hurl d2
    cases hsp : d.script_path with
    | none => simp [ToolDefinition.fromParsed, ToolDefinition.validate, hsp, himpl, hurl]
    | some sp =>
      by_cases h1 : sp.startsWith "/"
      · simp [ToolDefinition.fromParsed, ToolDefinition.validate, hsp, h1, himpl, hurl]
      · by_cases h2 : sp.startsWith "~"
        · simp [ToolDefinition.fromParsed, ToolDefinition.validate, hsp, h1, h2, himpl, hurl]
        · cases defDir with
          | none => simp [ToolDefinition.fromParsed, hsp, h1, h2]
          | some dir =>
            simp [ToolDefinition.fromParsed, ToolDefinition.validate, hsp, h1, h2, himpl, hurl]

/-- C7 amended witness: a script definition lacking its path and a
remote definition lacking its endpoint are both rejected at load time. -/
theorem load_time_validation_rejects_absent_witness :
    noPathScriptDef.fromParsed none
      = .error "Tool 'sc' has implementation_type 'script' but no script_path"
    ∧ noUrlMcpDef.fromParsed none ≠ .ok noUrlMcpDef :=
  ⟨(load_time_validation_rejects_absent noPathScriptDef none).1 rfl rfl,
   (load_time_validation_rejects_absent noUrlMcpDef none).2 rfl rfl noUrlMcpDef⟩

end CodeAgent
